import Mathlib

/-!
Verification development for the PyMOL script `IC_MBP_docking.py`
(repository gabrielmiles/MBP-IC).

The script is a set of procedural wrappers that issue commands to the
PyMOL host.  We embed it shallowly: every operation becomes a pure Lean
function from its arguments, together with the host's responses (the value
the host returns for `cmd.get("dot_solvent")` and the per-atom records the
host yields for `cmd.iterate`), to the list of host commands it issues and
the value it returns.  Host commands are reified in the inductive type
`Cmd`; selection expressions, which the Python code assembles as strings
for the host's selection-algebra parser, are reified in the inductive
type `Sel` mirroring exactly the string each call site builds.

Python floats appearing in the script's data paths (area differences,
cutoffs, view-matrix entries) are modelled as rationals: the operations
the script performs on them (`abs`, `>=`, passing them through) are exact
on IEEE values, so the rational model is faithful for every comparison the
script makes.
-/

set_option autoImplicit false

namespace MBPIC

/-- A Python runtime value, as far as this script manipulates them:
`None`, strings, integers, floats (modelled exactly as rationals),
and lists/tuples of values. -/
inductive PyVal where
  | none
  | str (s : String)
  | int (n : Int)
  | num (q : ℚ)
  | list (xs : List PyVal)
  | tuple (xs : List PyVal)

/-- Python equality test `v == lit` against a string literal: a Python
`str` compares by content, and no built-in non-string value is ever
equal to a string (in particular the integers `1` and `2` are not equal
to the strings `'1'` and `'2'`). -/
def pyEqStr : PyVal → String → Bool
  | .str a, b => a == b
  | _, _ => false

/-- A PyMOL selection expression, reified.  The Python code builds these
as strings; each constructor mirrors one syntactic form used by the
script (`raw` is a user-supplied or named sub-expression inserted
verbatim). -/
inductive Sel where
  | raw (s : String)
  | inter (a b : Sel)
  | union (a b : Sel)
  | neg (a : Sel)
  | polymer
  | resnSel (r : String)
  | resiSel (r : String)
  | noneSel
  | inOp (a b : Sel)
  deriving DecidableEq, Repr

/-- A command issued to the PyMOL host, one constructor per `cmd.*`
API call the script uses.  `reinit` stands for `cmd.reinitialize`. -/
inductive Cmd where
  | get (setting : String)
  | set (setting : String) (value : PyVal)
  | setSel (setting : String) (value : PyVal) (target : String)
  | create (name : String) (src : Sel)
  | disable (name : String)
  | enable (name : String)
  | remove (target : Sel)
  | getArea (target : Sel) (loadB : Bool)
  | alter (target : Sel) (expr : String)
  | extract (name : String) (src : Sel)
  | iterate (target : Sel) (expr : String)
  | select (name : String) (target : Sel)
  | delete (name : String)
  | reinit
  | load (path : String)
  | setName (oldName newName : String)
  | showRep (rep : String)
  | setView (m : List ℚ)
  | rotate (axis : String) (angle : ℚ) (target : Sel)
  | translate (v : List ℚ) (target : Sel)
  | center
  | move (axis : String) (d : ℚ)
  | setColor (name : String) (rgb : List ℤ)
  | color (name : String) (target : Sel)
  | bgColor (c : String)
  | unset (setting : String)
  | printOut (s : String)

/-- One record appended by the host during
`cmd.iterate(..., 'stored.r.append((model,resi,b))')`:
the model name, the residue identifier, and the atom's `b` value
(chain-alone area minus in-complex area). -/
abbrev AtomRec := String × String × ℚ

/-- The key the script builds for deduplication: `resi+"-"+model`. -/
def keyOf (model resi : String) : String := resi ++ "-" ++ model

/-- The `for (model,resi,diff) in stored.r` loop of `interfaceResidues`:
returns the accumulated `rVal`, the final `seen` list, and the
`cmd.select` commands issued, in order.  `seen.append(key)` appends at
the end, as in Python. -/
def interfaceLoop (cutoff : ℚ) (selName1 : String) :
    List AtomRec → List String → List AtomRec × List String × List Cmd
  | [], seen => ([], seen, [])
  | (model, resi, diff) :: rest, seen =>
    if |diff| ≥ cutoff then
      if keyOf model resi ∈ seen then
        interfaceLoop cutoff selName1 rest seen
      else
        let r := interfaceLoop cutoff selName1 rest (seen ++ [keyOf model resi])
        ((model, resi, diff) :: r.1, r.2.1,
          Cmd.select selName1
            (Sel.union (Sel.raw selName1)
              (Sel.inter (Sel.raw model) (Sel.resiSel resi))) :: r.2.2)
    else
      interfaceLoop cutoff selName1 rest seen

/-- The commands `interfaceResidues` issues after
`cmd.set("dot_solvent", 1)` and before its residue loop: build the
working copy, strip it, measure areas, extract the chains, measure
again, store the differences, iterate them out, and prepare the
temporary selection. -/
def interfacePre (cmpx cA cB : String) (selName : String) : List Cmd :=
  let tempC := "tempComplex"
  let selName1 := selName ++ "1"
  let chA := "chA"
  let chB := "chB"
  [Cmd.create tempC (Sel.raw cmpx),
   Cmd.disable cmpx,
   Cmd.remove (Sel.inter (Sel.raw tempC)
     (Sel.neg (Sel.inter Sel.polymer (Sel.union (Sel.raw cA) (Sel.raw cB))))),
   Cmd.getArea (Sel.raw tempC) true,
   Cmd.alter (Sel.raw tempC) "q=b",
   Cmd.extract chA (Sel.inter (Sel.raw tempC) (Sel.raw cA)),
   Cmd.extract chB (Sel.inter (Sel.raw tempC) (Sel.raw cB)),
   Cmd.getArea (Sel.raw chA) true,
   Cmd.getArea (Sel.raw chB) true,
   Cmd.alter (Sel.union (Sel.raw chA) (Sel.raw chB)) "b=b-q",
   Cmd.iterate (Sel.union (Sel.raw chA) (Sel.raw chB)) "stored.r.append((model,resi,b))",
   Cmd.enable cmpx,
   Cmd.select selName1 Sel.noneSel]

/-- The commands `interfaceResidues` issues after its residue loop and
before restoring `dot_solvent`: transfer the selection to the original
complex, delete the temporaries, and show the selection. -/
def interfacePost (cmpx : String) (selName : String) : List Cmd :=
  let tempC := "tempComplex"
  let selName1 := selName ++ "1"
  let chA := "chA"
  let chB := "chB"
  [Cmd.select selName (Sel.inOp (Sel.raw cmpx) (Sel.raw selName1)),
   Cmd.delete selName1,
   Cmd.delete chA,
   Cmd.delete chB,
   Cmd.delete tempC,
   Cmd.enable selName]

/-- The middle portion of the `interfaceResidues` command trace: every
command issued after `cmd.set("dot_solvent", 1)` and before the final
restoring `cmd.set("dot_solvent", oldDS)`. -/
def interfaceMiddle (cmpx cA cB : String) (cutoff : ℚ) (selName : String)
    (records : List AtomRec) : List Cmd :=
  interfacePre cmpx cA cB selName
  ++ (interfaceLoop cutoff (selName ++ "1") records []).2.2
  ++ interfacePost cmpx selName

/-- Shallow embedding of `interfaceResidues(cmpx, cA, cB, cutoff, selName)`:
given the host's response `oldDS` to `cmd.get("dot_solvent")` and the
records `records` the host yields during `cmd.iterate`, returns the full
command trace issued to the host paired with the returned array `rVal`. -/
def interfaceResidues (cmpx : String) (cA : String) (cB : String)
    (cutoff : ℚ) (selName : String) (oldDS : PyVal)
    (records : List AtomRec) : List Cmd × List AtomRec :=
  ([Cmd.get "dot_solvent", Cmd.set "dot_solvent" (PyVal.int 1)]
     ++ interfaceMiddle cmpx cA cB cutoff selName records
     ++ [Cmd.set "dot_solvent" oldDS],
   (interfaceLoop cutoff (selName ++ "1") records []).1)

/-- The 18-component view matrix hard-coded for docking configuration 1,
identical at its two occurrences in the script. -/
def viewMatrix1 : List ℚ :=
  [0.547810793, 0.809414983, 0.211547419,
   -0.178774685, 0.360282600, -0.915552616,
   -0.817279518, 0.463730723, 0.342069268,
   0.000000000, 0.000000000, -257.350799561,
   28.792110443, 50.535285950, 52.779388428,
   202.897338867, 311.804260254, -20.000000000]

/-- The 18-component view matrix hard-coded for docking configuration 2,
identical at its two occurrences in the script. -/
def viewMatrix2 : List ℚ :=
  [-0.739635348, -0.367862731, -0.563574135,
   0.143549025, -0.904357791, 0.401908547,
   -0.657520115, 0.216365919, 0.721703112,
   0.000000000, 0.000000000, -299.573425293,
   67.182876587, 45.570850372, 51.338077545,
   -32216.630859375, 32815.777343750, -20.000000000]

/-- Shallow embedding of `initial_orientation(path, config)`: the command
trace issued to the host.  The model name is derived from `path` exactly
as the Python does: last `/`-separated component, with every occurrence
of `".pdb"` removed. -/
def initial_orientation (path : String) (config : PyVal) : List Cmd :=
  let pathMtrx := path.splitOn "/"
  let filename := pathMtrx.getLastD ""
  let model := filename.replace ".pdb" ""
  [Cmd.reinit,
   Cmd.load path,
   Cmd.setName model "OM",
   Cmd.showRep "surface",
   Cmd.setSel "surface_color" (PyVal.str "skyblue") "chain A",
   Cmd.setSel "surface_color" (PyVal.str "orange") "chain B"]
  ++ (if pyEqStr config "1" then [Cmd.setView viewMatrix1]
      else if pyEqStr config "2" then [Cmd.setView viewMatrix2]
      else [])

/-- Shallow embedding of `reset_view(config)`: the command trace issued
to the host. -/
def reset_view (config : PyVal) : List Cmd :=
  if pyEqStr config "1" then [Cmd.setView viewMatrix1]
  else if pyEqStr config "2" then [Cmd.setView viewMatrix2]
  else []

/-- Shallow embedding of `split_chains()`: the command trace issued to
the host. -/
def split_chains : List Cmd :=
  [Cmd.select "MBP" (Sel.raw "chain B"),
   Cmd.rotate "y" (-90) (Sel.raw "(MBP)"),
   Cmd.translate [-90, 0, 20] (Sel.raw "(MBP)"),
   Cmd.select "OSM" (Sel.raw "chain A"),
   Cmd.rotate "y" 90 (Sel.raw "(OSM)"),
   Cmd.translate [0, 0, 20] (Sel.raw "(OSM)"),
   Cmd.center,
   Cmd.move "x" (-10)]

/-- Shallow embedding of `ray_settings()`: the command trace issued to
the host. -/
def ray_settings : List Cmd :=
  [Cmd.set "ray_trace_fog" (PyVal.int 0),
   Cmd.set "ray_shadows" (PyVal.int 0),
   Cmd.unset "depth_cue",
   Cmd.bgColor "white",
   Cmd.set "antialias" (PyVal.int 2),
   Cmd.set "hash_max" (PyVal.int 300),
   Cmd.set "ambient" (PyVal.num 0.4)]

/-- The twenty standard amino-acid residue names, in the order the
script's `cmd.color` calls use them. -/
def aminoNames : List String :=
  ["ile", "phe", "val", "leu", "trp", "met", "ala", "gly", "cys", "tyr",
   "pro", "thr", "ser", "his", "glu", "asn", "gln", "asp", "lys", "arg"]

/-- The RGB values assigned to the twenty hydrophobicity colors, in the
same order as `aminoNames`. -/
def aminoRGB : List (List ℤ) :=
  [[71, 67, 243], [88, 76, 244], [103, 86, 245], [116, 95, 246],
   [128, 105, 247], [139, 115, 248], [149, 124, 249], [159, 134, 250],
   [168, 144, 250], [177, 153, 251], [186, 163, 252], [194, 173, 252],
   [202, 183, 253], [210, 193, 253], [218, 203, 254], [226, 214, 254],
   [233, 224, 254], [241, 234, 255], [248, 245, 255], [255, 255, 255]]

/-- The selection target string `"(" ++ s ++ " and resn X)"` that
`hydrophobicity` builds for residue name `r`, reified. -/
def hydroTarget (s r : String) : Sel :=
  Sel.inter (Sel.raw s) (Sel.resnSel r)

/-- Shallow embedding of `hydrophobicity(selection)`: the command trace
issued, call by call in source order (the leading `print(s)` is modelled
as `printOut`). -/
def hydrophobicity (selection : String) : List Cmd :=
  let s := selection
  [Cmd.printOut s,
   Cmd.setColor "color_ile3" [71, 67, 243],
   Cmd.setColor "color_phe3" [88, 76, 244],
   Cmd.setColor "color_val3" [103, 86, 245],
   Cmd.setColor "color_leu3" [116, 95, 246],
   Cmd.setColor "color_trp3" [128, 105, 247],
   Cmd.setColor "color_met3" [139, 115, 248],
   Cmd.setColor "color_ala3" [149, 124, 249],
   Cmd.setColor "color_gly3" [159, 134, 250],
   Cmd.setColor "color_cys3" [168, 144, 250],
   Cmd.setColor "color_tyr3" [177, 153, 251],
   Cmd.setColor "color_pro3" [186, 163, 252],
   Cmd.setColor "color_thr3" [194, 173, 252],
   Cmd.setColor "color_ser3" [202, 183, 253],
   Cmd.setColor "color_his3" [210, 193, 253],
   Cmd.setColor "color_glu3" [218, 203, 254],
   Cmd.setColor "color_asn3" [226, 214, 254],
   Cmd.setColor "color_gln3" [233, 224, 254],
   Cmd.setColor "color_asp3" [241, 234, 255],
   Cmd.setColor "color_lys3" [248, 245, 255],
   Cmd.setColor "color_arg3" [255, 255, 255],
   Cmd.color "color_ile3" (hydroTarget s "ile"),
   Cmd.color "color_phe3" (hydroTarget s "phe"),
   Cmd.color "color_val3" (hydroTarget s "val"),
   Cmd.color "color_leu3" (hydroTarget s "leu"),
   Cmd.color "color_trp3" (hydroTarget s "trp"),
   Cmd.color "color_met3" (hydroTarget s "met"),
   Cmd.color "color_ala3" (hydroTarget s "ala"),
   Cmd.color "color_gly3" (hydroTarget s "gly"),
   Cmd.color "color_cys3" (hydroTarget s "cys"),
   Cmd.color "color_tyr3" (hydroTarget s "tyr"),
   Cmd.color "color_pro3" (hydroTarget s "pro"),
   Cmd.color "color_thr3" (hydroTarget s "thr"),
   Cmd.color "color_ser3" (hydroTarget s "ser"),
   Cmd.color "color_his3" (hydroTarget s "his"),
   Cmd.color "color_glu3" (hydroTarget s "glu"),
   Cmd.color "color_asn3" (hydroTarget s "asn"),
   Cmd.color "color_gln3" (hydroTarget s "gln"),
   Cmd.color "color_asp3" (hydroTarget s "asp"),
   Cmd.color "color_lys3" (hydroTarget s "lys"),
   Cmd.color "color_arg3" (hydroTarget s "arg")]

/-! ## Return values

`interfaceResidues` returns `rVal`, a list of `(model, resi, dASA)`
tuples; every other operation falls off its body and returns Python's
`None`. -/

/-- The Python value `interfaceResidues` returns: `rVal` as a list of
`(model, resi, b)` tuples. -/
def interfaceResiduesRet (cutoff : ℚ) (selName : String)
    (records : List AtomRec) : PyVal :=
  PyVal.list ((interfaceLoop cutoff (selName ++ "1") records []).1.map
    (fun x => PyVal.tuple [PyVal.str x.1, PyVal.str x.2.1, PyVal.num x.2.2]))

/-- The Python value each of the other five operations returns: `None`
(each body ends without a `return` statement). -/
def noneRet : PyVal := PyVal.none

/-- A "simple textual/numeric result": `None`, a string, a number, or a
list/tuple built out of such values. -/
inductive SimpleVal : PyVal → Prop where
  | none : SimpleVal PyVal.none
  | str (s : String) : SimpleVal (PyVal.str s)
  | int (n : Int) : SimpleVal (PyVal.int n)
  | num (q : ℚ) : SimpleVal (PyVal.num q)
  | list {xs : List PyVal} : (∀ v ∈ xs, SimpleVal v) → SimpleVal (PyVal.list xs)
  | tuple {xs : List PyVal} : (∀ v ∈ xs, SimpleVal v) → SimpleVal (PyVal.tuple xs)

/-! ## Host-state semantics

The script manages two aspects of host state: named settings
(`dot_solvent`, …) and the table of named objects/selections, each of
which is present or absent and, when present, enabled or disabled.
Commands below the script's level of abstraction (area computation,
atom alteration, geometry) leave this state unchanged. -/

/-- The host state visible to this script: settings by name, and for
every object/selection name, `Option.none` if absent or `some e` with
its enabled flag `e`. -/
structure HostState where
  settings : String → PyVal
  objects : String → Option Bool

/-- Effect of one host command on the host state.  `create`, `extract`
and `select` make the target name present and enabled; `delete` removes
it; `enable`/`disable` flip the flag of a present name and do nothing on
an absent one; `set` updates a setting; `reinit` clears everything;
commands operating below this abstraction leave the state unchanged. -/
def applyCmd (s : HostState) : Cmd → HostState
  | Cmd.set name v =>
      { s with settings := fun n => if n = name then v else s.settings n }
  | Cmd.create name _ =>
      { s with objects := fun n => if n = name then some true else s.objects n }
  | Cmd.extract name _ =>
      { s with objects := fun n => if n = name then some true else s.objects n }
  | Cmd.select name _ =>
      { s with objects := fun n => if n = name then some true else s.objects n }
  | Cmd.load name =>
      { s with objects := fun n => if n = name then some true else s.objects n }
  | Cmd.delete name =>
      { s with objects := fun n => if n = name then none else s.objects n }
  | Cmd.enable name =>
      { s with objects := fun n =>
          if n = name then (s.objects name).map (fun _ => true) else s.objects n }
  | Cmd.disable name =>
      { s with objects := fun n =>
          if n = name then (s.objects name).map (fun _ => false) else s.objects n }
  | Cmd.setName oldName newName =>
      { s with objects := fun n =>
          if n = newName then s.objects oldName
          else if n = oldName then none
          else s.objects n }
  | Cmd.reinit => { settings := fun _ => PyVal.none, objects := fun _ => none }
  | _ => s

/-- Run a command trace from a host state. -/
def applyTrace (s : HostState) : List Cmd → HostState
  | [] => s
  | c :: cs => applyTrace (applyCmd s c) cs

/-- Host execution in which the host raises an error `e` on the `k`-th
command (0-based) of the trace: the commands before it take effect, the
rest are never reached, and the error propagates unchanged to the caller
(the script installs no handler).  If `k` is past the end of the trace,
the run completes normally. -/
def runUpTo (k : Nat) (e : String) (s : HostState) (cs : List Cmd) :
    HostState × Option String :=
  if k < cs.length then (applyTrace s (cs.take k), some e) else (applyTrace s cs, none)

/-! ## Atom-level color semantics

For the `hydrophobicity` frame claim we track one atom.  The host
decides membership in raw selection sub-expressions and in the geometric
`polymer` / `in` predicates; those are oracle fields of the atom.
`resn` matching is case-insensitive, as in the host. -/

/-- One atom, with its current color, residue name (stored in the
lowercase normal form under which the host matches `resn`
case-insensitively), residue identifier, and host-determined membership
oracles for raw selection strings, the `polymer` predicate, and the `in`
operator. -/
structure Atom where
  colorName : String
  resn : String
  resi : String
  memRaw : String → Bool
  isPolymer : Bool
  memIn : Sel → Sel → Bool

/-- Whether an atom satisfies a selection expression.  `resn` and `resi`
matching compare the stored normal forms (the host matches `resn`
case-insensitively; the script's `resn` literals are already
lowercase). -/
def selDenote (a : Atom) : Sel → Bool
  | Sel.raw s => a.memRaw s
  | Sel.inter x y => selDenote a x && selDenote a y
  | Sel.union x y => selDenote a x || selDenote a y
  | Sel.neg x => !selDenote a x
  | Sel.polymer => a.isPolymer
  | Sel.resnSel r => a.resn == r
  | Sel.resiSel r => a.resi == r
  | Sel.noneSel => false
  | Sel.inOp x y => a.memIn x y

/-- Effect of one command on one atom's color: only `color` commands
whose target the atom satisfies change it. -/
def applyCmdAtom (a : Atom) : Cmd → Atom
  | Cmd.color c t => if selDenote a t then { a with colorName := c } else a
  | _ => a

/-- Run a command trace over one atom's color. -/
def applyTraceAtom (a : Atom) : List Cmd → Atom
  | [] => a
  | c :: cs => applyTraceAtom (applyCmdAtom a c) cs

/-! ## Spec-side description of the interface filter -/

/-- The resi-model key of one record. -/
def recKey (x : AtomRec) : String := keyOf x.1 x.2.1

/-- Keep, in order, the first record for each resi-model key not already
in `seen`.  This is the spec's "keeping only the first record for each
resi-model key". -/
def firstPerKey : List AtomRec → List String → List AtomRec
  | [], _ => []
  | x :: rest, seen =>
    if recKey x ∈ seen then firstPerKey rest seen
    else x :: firstPerKey rest (recKey x :: seen)

/-- Spec-side description of the value `interfaceResidues` returns: the
host-iterated records whose area difference crosses the cutoff threshold
(`|b| ≥ cutoff`), in iteration order, keeping only the first record for
each resi-model key. -/
def specThresholdFilter (cutoff : ℚ) (records : List AtomRec) : List AtomRec :=
  firstPerKey (records.filter fun x => decide (|x.2.2| ≥ cutoff)) []

/-- The loop of `interfaceResidues` computes `firstPerKey` of the
threshold-filtered records, for any two representations of the set of
already-seen keys. -/
lemma interfaceLoop_eq_firstPerKey (c : ℚ) (sn : String) :
    ∀ (records : List AtomRec) (seen₁ seen₂ : List String),
      (∀ k, k ∈ seen₁ ↔ k ∈ seen₂) →
      (interfaceLoop c sn records seen₁).1 =
        firstPerKey (records.filter fun x => decide (|x.2.2| ≥ c)) seen₂ := by
  intro records
  induction records with
  | nil => intro seen₁ seen₂ _; simp [interfaceLoop, firstPerKey]
  | cons x rest ih =>
    intro seen₁ seen₂ hseen
    obtain ⟨model, resi, diff⟩ := x
    by_cases hq : |diff| ≥ c
    · by_cases hk : keyOf model resi ∈ seen₁
      · have hk₂ : recKey (model, resi, diff) ∈ seen₂ := (hseen _).mp hk
        simp only [interfaceLoop, if_pos hq, if_pos hk, List.filter_cons,
          decide_eq_true hq, firstPerKey, if_pos hk₂]
        exact ih seen₁ seen₂ hseen
      · have hk₂ : ¬ recKey (model, resi, diff) ∈ seen₂ :=
          fun h => hk ((hseen _).mpr h)
        simp only [interfaceLoop, if_pos hq, if_neg hk, List.filter_cons,
          decide_eq_true hq, firstPerKey, if_neg hk₂]
        refine congrArg (List.cons _) ?_
        refine ih _ _ (fun k => ?_)
        simp only [List.mem_append, List.mem_singleton, List.mem_cons, hseen k]
        tauto
    · simp only [interfaceLoop, if_neg hq, List.filter_cons,
        decide_eq_false hq]
      exact ih seen₁ seen₂ hseen

/-- C1.  `interfaceResidues` is a threshold filter over the host-computed
per-atom area differences: for every list of `(model, resi, b)` records
the host iteration yields and every cutoff, the returned array consists
exactly of the records whose area difference crosses the cutoff
threshold (`|b| ≥ cutoff`), in iteration order, keeping only the first
record for each resi-model key. -/
theorem interfaceResidues_is_threshold_filter (cmpx cA cB : String)
    (cutoff : ℚ) (selName : String) (oldDS : PyVal) (records : List AtomRec) :
    (interfaceResidues cmpx cA cB cutoff selName oldDS records).2 =
      specThresholdFilter cutoff records := by
  exact interfaceLoop_eq_firstPerKey cutoff (selName ++ "1") records [] []
    (fun k => Iff.rfl)

/-- Every record kept by `firstPerKey` comes from the input list. -/
lemma mem_of_mem_firstPerKey :
    ∀ {l : List AtomRec} {seen : List String} {x : AtomRec},
      x ∈ firstPerKey l seen → x ∈ l := by
  intro l
  induction l with
  | nil => intro seen x h; simp [firstPerKey] at h
  | cons y rest ih =>
    intro seen x h
    simp only [firstPerKey] at h
    by_cases hk : recKey y ∈ seen
    · rw [if_pos hk] at h
      exact List.mem_cons_of_mem _ (ih h)
    · rw [if_neg hk] at h
      rcases List.mem_cons.mp h with h | h
      · exact h ▸ List.mem_cons_self _ _
      · exact List.mem_cons_of_mem _ (ih h)

/-- The key of every record kept by `firstPerKey` avoids `seen`. -/
lemma key_not_seen_of_mem_firstPerKey :
    ∀ {l : List AtomRec} {seen : List String} {x : AtomRec},
      x ∈ firstPerKey l seen → recKey x ∉ seen := by
  intro l
  induction l with
  | nil => intro seen x h; simp [firstPerKey] at h
  | cons y rest ih =>
    intro seen x h
    simp only [firstPerKey] at h
    by_cases hk : recKey y ∈ seen
    · rw [if_pos hk] at h
      exact ih h
    · rw [if_neg hk] at h
      rcases List.mem_cons.mp h with h | h
      · exact h ▸ hk
      · exact fun hs => ih h (List.mem_cons_of_mem _ hs)

/-- The keys of the records kept by `firstPerKey` are pairwise distinct. -/
lemma nodup_keys_firstPerKey :
    ∀ (l : List AtomRec) (seen : List String),
      ((firstPerKey l seen).map recKey).Nodup := by
  intro l
  induction l with
  | nil => intro seen; simp [firstPerKey]
  | cons y rest ih =>
    intro seen
    simp only [firstPerKey]
    by_cases hk : recKey y ∈ seen
    · rw [if_pos hk]; exact ih seen
    · rw [if_neg hk]
      simp only [List.map_cons, List.nodup_cons]
      refine ⟨?_, ih _⟩
      intro hmem
      rcases List.mem_map.mp hmem with ⟨x, hx, hkey⟩
      exact key_not_seen_of_mem_firstPerKey hx (hkey ▸ List.mem_cons_self _ _)

/-- Looking a key up in the output of `firstPerKey` finds the first input
record with that key, provided the key is not blocked by `seen`. -/
lemma find?_firstPerKey (k : String) :
    ∀ (l : List AtomRec) (seen : List String), k ∉ seen →
      (firstPerKey l seen).find? (fun x => recKey x == k) =
        l.find? (fun x => recKey x == k) := by
  intro l
  induction l with
  | nil => intro seen _; simp [firstPerKey]
  | cons y rest ih =>
    intro seen hk
    simp only [firstPerKey]
    by_cases hy : recKey y ∈ seen
    · rw [if_pos hy]
      have hne : (recKey y == k) = false := by
        simp only [beq_eq_false_iff_ne, ne_eq]
        exact fun h => hk (h ▸ hy)
      rw [List.find?_cons, hne]
      exact ih seen hk
    · rw [if_neg hy]
      by_cases heq : recKey y = k
      · rw [List.find?_cons, List.find?_cons]
        simp [heq]
      · have hne : (recKey y == k) = false := by
          simp only [beq_eq_false_iff_ne, ne_eq]; exact heq
        rw [List.find?_cons, List.find?_cons, hne]
        refine ih _ (fun h => ?_)
        rcases List.mem_cons.mp h with h | h
        · exact heq h.symm
        · exact hk h

/-- `find?` on a filtered list searches for the conjunction. -/
lemma find?_filter_conj {α : Type} (p q : α → Bool) :
    ∀ (l : List α), (l.filter p).find? q = l.find? (fun a => p a && q a) := by
  intro l
  induction l with
  | nil => simp
  | cons y rest ih =>
    rw [List.filter_cons, List.find?_cons]
    by_cases hp : p y
    · rw [if_pos hp, List.find?_cons]
      by_cases hq : q y
      · simp [hp, hq]
      · simp only [Bool.not_eq_true] at hq
        simp [hp, hq, ih]
    · simp only [Bool.not_eq_true] at hp
      simp [hp, ih]

/-- C2.  A residue qualifies as an interface residue as soon as any
single one of its atoms has `|b| ≥ cutoff` (non-strict, on the absolute
value, so a negative area change of sufficient magnitude also
qualifies); the entry reported for a residue key is the first qualifying
atom's record, not a per-residue total; and each `(model, resi)` pair
appears at most once in the returned list. -/
theorem interfaceResidues_first_qualifying_atom (cmpx cA cB : String)
    (cutoff : ℚ) (selName : String) (oldDS : PyVal) (records : List AtomRec) :
    (∀ k : String,
      (interfaceResidues cmpx cA cB cutoff selName oldDS records).2.find?
          (fun x => recKey x == k) =
        records.find? (fun x => decide (|x.2.2| ≥ cutoff) && (recKey x == k))) ∧
    (∀ k : String,
      (∃ x ∈ (interfaceResidues cmpx cA cB cutoff selName oldDS records).2,
          recKey x = k) ↔
        (∃ x ∈ records, recKey x = k ∧ |x.2.2| ≥ cutoff)) ∧
    ((interfaceResidues cmpx cA cB cutoff selName oldDS records).2.map
        (fun x => (x.1, x.2.1))).Nodup := by
  have hres : (interfaceResidues cmpx cA cB cutoff selName oldDS records).2 =
      firstPerKey (records.filter fun x => decide (|x.2.2| ≥ cutoff)) [] :=
    interfaceLoop_eq_firstPerKey cutoff (selName ++ "1") records [] []
      (fun k => Iff.rfl)
  rw [hres]
  have hfind : ∀ k : String,
      (firstPerKey (records.filter fun x => decide (|x.2.2| ≥ cutoff)) []).find?
          (fun x => recKey x == k) =
        records.find? (fun x => decide (|x.2.2| ≥ cutoff) && (recKey x == k)) := by
    intro k
    rw [find?_firstPerKey k _ [] (List.not_mem_nil k),
      find?_filter_conj (fun x => decide (|x.2.2| ≥ cutoff)) (fun x => recKey x == k)]
  refine ⟨hfind, ?_, ?_⟩
  · intro k
    constructor
    · rintro ⟨x, hx, rfl⟩
      have hxl := mem_of_mem_firstPerKey hx
      have hq := List.of_mem_filter hxl
      exact ⟨x, List.mem_of_mem_filter hxl, rfl, of_decide_eq_true hq⟩
    · rintro ⟨x, hx, rfl, hq⟩
      have : (records.find? (fun x' =>
          decide (|x'.2.2| ≥ cutoff) && (recKey x' == recKey x))).isSome := by
        rw [List.find?_isSome]
        exact ⟨x, hx, by simp [hq]⟩
      rw [← hfind (recKey x), List.find?_isSome] at this
      rcases this with ⟨y, hy, hyk⟩
      exact ⟨y, hy, by simpa using hyk⟩
  · have hkeys := nodup_keys_firstPerKey
      (records.filter fun x => decide (|x.2.2| ≥ cutoff)) []
    have : (firstPerKey (records.filter fun x => decide (|x.2.2| ≥ cutoff)) []).map
        recKey =
      ((firstPerKey (records.filter fun x => decide (|x.2.2| ≥ cutoff)) []).map
          (fun x => (x.1, x.2.1))).map (fun p => keyOf p.1 p.2) := by
      rw [List.map_map]; rfl
    rw [this] at hkeys
    exact List.Nodup.of_map _ hkeys

/-- C10, counterexample.  The returned triples are not antitone in the
cutoff: with records `[("m","1",1/2), ("m","1",2)]`, cutoff `1` keeps the
second atom's triple `("m","1",2)` (the first atom does not qualify),
while cutoff `0 ≤ 1` keeps the first atom's triple `("m","1",1/2)`
instead, so the triple returned at cutoff `1` is not returned at
cutoff `0`. -/
theorem interfaceResidues_not_antitone_on_triples :
    (0 : ℚ) ≤ 1 ∧
    ("m", "1", (2 : ℚ)) ∈
      (interfaceResidues "cmplx" "c. A" "c. B" 1 "interface" (PyVal.int 0)
        [("m", "1", (1 : ℚ)/2), ("m", "1", 2)]).2 ∧
    ("m", "1", (2 : ℚ)) ∉
      (interfaceResidues "cmplx" "c. A" "c. B" 0 "interface" (PyVal.int 0)
        [("m", "1", (1 : ℚ)/2), ("m", "1", 2)]).2 := by
  refine ⟨by norm_num, ?_, ?_⟩ <;>
    simp [interfaceResidues, interfaceLoop, keyOf, abs] <;> norm_num

/-- C10, amended.  The set of interface residues (resi-model keys) is
antitone in the cutoff: for `c1 ≤ c2` every key returned with cutoff
`c2` is also returned with cutoff `c1` (though possibly carried by a
different, earlier qualifying atom); and with cutoff `0` every iterated
residue is kept, one triple per key. -/
theorem interfaceResidues_antitone_on_residues (cmpx cA cB : String)
    (selName : String) (oldDS : PyVal) (records : List AtomRec)
    (c1 c2 : ℚ) (h : c1 ≤ c2) :
    (∀ x ∈ (interfaceResidues cmpx cA cB c2 selName oldDS records).2,
        recKey x ∈
          (interfaceResidues cmpx cA cB c1 selName oldDS records).2.map recKey) ∧
    (∀ k : String,
      k ∈ (interfaceResidues cmpx cA cB 0 selName oldDS records).2.map recKey ↔
        k ∈ records.map recKey) ∧
    ((interfaceResidues cmpx cA cB 0 selName oldDS records).2.map recKey).Nodup := by
  have hres : ∀ c : ℚ, (interfaceResidues cmpx cA cB c selName oldDS records).2 =
      firstPerKey (records.filter fun x => decide (|x.2.2| ≥ c)) [] :=
    fun c => interfaceLoop_eq_firstPerKey c (selName ++ "1") records [] []
      (fun k => Iff.rfl)
  have hkey : ∀ (c : ℚ) (k : String),
      k ∈ (firstPerKey (records.filter fun x => decide (|x.2.2| ≥ c)) []).map recKey ↔
        ∃ x ∈ records, recKey x = k ∧ |x.2.2| ≥ c := by
    intro c k
    constructor
    · intro hk
      rcases List.mem_map.mp hk with ⟨x, hx, rfl⟩
      have hxl := mem_of_mem_firstPerKey hx
      have hq := List.of_mem_filter hxl
      exact ⟨x, List.mem_of_mem_filter hxl, rfl, of_decide_eq_true hq⟩
    · rintro ⟨x, hx, rfl, hq⟩
      have hsome : ((records.filter fun x' => decide (|x'.2.2| ≥ c)).find?
          (fun x' => recKey x' == recKey x)).isSome := by
        rw [List.find?_isSome]
        exact ⟨x, List.mem_filter.mpr ⟨hx, decide_eq_true hq⟩, by simp⟩
      rw [← find?_firstPerKey (recKey x) _ [] (List.not_mem_nil _),
        List.find?_isSome] at hsome
      rcases hsome with ⟨y, hy, hyk⟩
      exact List.mem_map.mpr ⟨y, hy, by simpa using hyk⟩
  rw [hres c1, hres c2, hres 0]
  refine ⟨?_, ?_, nodup_keys_firstPerKey _ []⟩
  · intro x hx
    have hxl := mem_of_mem_firstPerKey hx
    have hq0 := List.of_mem_filter hxl
    have hq : |x.2.2| ≥ c2 := of_decide_eq_true hq0
    exact (hkey c1 (recKey x)).mpr
      ⟨x, List.mem_of_mem_filter hxl, rfl, le_trans h hq⟩
  · intro k
    rw [hkey 0 k]
    constructor
    · rintro ⟨x, hx, rfl, _⟩
      exact List.mem_map.mpr ⟨x, hx, rfl⟩
    · intro hk
      rcases List.mem_map.mp hk with ⟨x, hx, rfl⟩
      exact ⟨x, hx, rfl, abs_nonneg _⟩

/-- Witness for `interfaceResidues_antitone_on_residues` at a concrete
input: with records `[("m","1",1/2), ("m","1",2)]` and cutoffs `0 ≤ 1`,
the key of the triple kept at cutoff `1` is among the keys kept at
cutoff `0`. -/
theorem interfaceResidues_antitone_on_residues_witness :
    recKey ("m", "1", (2 : ℚ)) ∈
      (interfaceResidues "cmplx" "c. A" "c. B" 0 "interface" (PyVal.int 0)
        [("m", "1", (1 : ℚ)/2), ("m", "1", 2)]).2.map recKey := by
  refine (interfaceResidues_antitone_on_residues "cmplx" "c. A" "c. B"
    "interface" (PyVal.int 0) [("m", "1", (1 : ℚ)/2), ("m", "1", 2)]
    0 1 (by norm_num)).1 ("m", "1", (2 : ℚ)) ?_
  simp [interfaceResidues, interfaceLoop, keyOf, abs]
  norm_num

/-! ## View-matrix claims -/

/-- The view matrices a command trace issues, in order. -/
def viewsOf (t : List Cmd) : List (List ℚ) :=
  t.filterMap (fun c => match c with | Cmd.setView m => some m | _ => none)

/-- C5.  The figure orientations are reproducible: for each config in
`{'1','2'}`, `reset_view(config)` issues exactly the one 18-component
view matrix that `initial_orientation(path, config)` issues for that
config. -/
theorem reset_view_restores_initial_orientation (path : String)
    (config : PyVal) (h : config = PyVal.str "1" ∨ config = PyVal.str "2") :
    viewsOf (initial_orientation path config) = viewsOf (reset_view config) ∧
    (viewsOf (reset_view config)).length = 1 := by
  rcases h with h | h
  · subst h; exact ⟨rfl, rfl⟩
  · subst h; exact ⟨rfl, rfl⟩

/-- Witness for `reset_view_restores_initial_orientation` at config `'1'`
and a concrete path. -/
theorem reset_view_restores_initial_orientation_witness :
    viewsOf (initial_orientation "original-models/dock1.pdb" (PyVal.str "1")) =
      viewsOf (reset_view (PyVal.str "1")) ∧
    (viewsOf (reset_view (PyVal.str "1"))).length = 1 :=
  reset_view_restores_initial_orientation "original-models/dock1.pdb"
    (PyVal.str "1") (Or.inl rfl)

/-- A Python value different from the string literal `s` compares
unequal to it. -/
lemma pyEqStr_eq_false {v : PyVal} {s : String} (h : v ≠ PyVal.str s) :
    pyEqStr v s = false := by
  cases v with
  | str a =>
    simp only [pyEqStr, beq_eq_false_iff_ne, ne_eq]
    exact fun hh => h (by rw [hh])
  | none => rfl
  | int n => rfl
  | num q => rfl
  | list xs => rfl
  | tuple xs => rfl

/-- C9.  The config parameter is compared only against the exact strings
`'1'` and `'2'`: for every other value (including the integers `1` and
`2`), `reset_view` issues no command at all, and `initial_orientation`
still reinitializes, loads, renames, shows and surface-colors the
structure but issues no `set_view` command. -/
theorem config_matched_as_exact_string (path : String) (config : PyVal)
    (h1 : config ≠ PyVal.str "1") (h2 : config ≠ PyVal.str "2") :
    reset_view config = [] ∧
    initial_orientation path config =
      [Cmd.reinit,
       Cmd.load path,
       Cmd.setName (((path.splitOn "/").getLastD "").replace ".pdb" "") "OM",
       Cmd.showRep "surface",
       Cmd.setSel "surface_color" (PyVal.str "skyblue") "chain A",
       Cmd.setSel "surface_color" (PyVal.str "orange") "chain B"] ∧
    viewsOf (initial_orientation path config) = [] := by
  have e1 := pyEqStr_eq_false h1
  have e2 := pyEqStr_eq_false h2
  refine ⟨?_, ?_, ?_⟩
  · simp [reset_view, e1, e2]
  · simp [initial_orientation, e1, e2]
  · simp [initial_orientation, viewsOf, e1, e2]

/-- Witness for `config_matched_as_exact_string` at the integer `1`
(which Python does not identify with the string `'1'`). -/
theorem config_matched_as_exact_string_witness :
    reset_view (PyVal.int 1) = [] ∧
    initial_orientation "original-models/dock1.pdb" (PyVal.int 1) =
      [Cmd.reinit,
       Cmd.load "original-models/dock1.pdb",
       Cmd.setName ((("original-models/dock1.pdb".splitOn "/").getLastD "").replace ".pdb" "") "OM",
       Cmd.showRep "surface",
       Cmd.setSel "surface_color" (PyVal.str "skyblue") "chain A",
       Cmd.setSel "surface_color" (PyVal.str "orange") "chain B"] ∧
    viewsOf (initial_orientation "original-models/dock1.pdb" (PyVal.int 1)) = [] :=
  config_matched_as_exact_string "original-models/dock1.pdb" (PyVal.int 1)
    (by intro h; cases h) (by intro h; cases h)

/-- C3.  Every operation returns a simple textual/numeric result:
`interfaceResidues` returns a list of `(string, string, number)` tuples,
and each of the five other operations (`initial_orientation`,
`reset_view`, `split_chains`, `ray_settings`, `hydrophobicity`) falls
off the end of its body and returns `None`. -/
theorem operations_return_simple_values (cutoff : ℚ) (selName : String)
    (records : List AtomRec) :
    SimpleVal (interfaceResiduesRet cutoff selName records) ∧ SimpleVal noneRet := by
  constructor
  · refine SimpleVal.list ?_
    intro v hv
    rcases List.mem_map.mp hv with ⟨x, _, rfl⟩
    refine SimpleVal.tuple ?_
    intro w hw
    rcases List.mem_cons.mp hw with h | hw
    · exact h ▸ SimpleVal.str x.1
    rcases List.mem_cons.mp hw with h | hw
    · exact h ▸ SimpleVal.str x.2.1
    rcases List.mem_cons.mp hw with h | hw
    · exact h ▸ SimpleVal.num x.2.2
    · simp at hw
  · exact SimpleVal.none

/-- C7.  Every operation is deterministic and sequential: two runs of the
same operation with identical arguments, in which the host returns
identical responses (the `dot_solvent` value read back and the records
yielded by `cmd.iterate`), issue the identical command sequence in the
identical order and return equal results. -/
theorem operations_deterministic (cmpx cA cB selName path sel sel' : String)
    (cutoff : ℚ) (oldDS oldDS' : PyVal) (records records' : List AtomRec)
    (config config' : PyVal)
    (hds : oldDS = oldDS') (hrec : records = records') (hcfg : config = config')
    (hsel : sel = sel') :
    interfaceResidues cmpx cA cB cutoff selName oldDS records =
      interfaceResidues cmpx cA cB cutoff selName oldDS' records' ∧
    interfaceResiduesRet cutoff selName records =
      interfaceResiduesRet cutoff selName records' ∧
    initial_orientation path config = initial_orientation path config' ∧
    reset_view config = reset_view config' ∧
    split_chains = split_chains ∧
    ray_settings = ray_settings ∧
    hydrophobicity sel = hydrophobicity sel' := by
  subst hds; subst hrec; subst hcfg; subst hsel
  exact ⟨rfl, rfl, rfl, rfl, rfl, rfl, rfl⟩

/-- Witness for `operations_deterministic` at concrete arguments and
host responses. -/
theorem operations_deterministic_witness :
    interfaceResidues "cmplx" "c. A" "c. B" 1 "interface" (PyVal.int 0)
        [("m", "1", (3 : ℚ)/2)] =
      interfaceResidues "cmplx" "c. A" "c. B" 1 "interface" (PyVal.int 0)
        [("m", "1", (3 : ℚ)/2)] ∧
    interfaceResiduesRet 1 "interface" [("m", "1", (3 : ℚ)/2)] =
      interfaceResiduesRet 1 "interface" [("m", "1", (3 : ℚ)/2)] ∧
    initial_orientation "original-models/dock1.pdb" (PyVal.str "1") =
      initial_orientation "original-models/dock1.pdb" (PyVal.str "1") ∧
    reset_view (PyVal.str "1") = reset_view (PyVal.str "1") ∧
    split_chains = split_chains ∧
    ray_settings = ray_settings ∧
    hydrophobicity "all" = hydrophobicity "all" :=
  operations_deterministic "cmplx" "c. A" "c. B" "interface"
    "original-models/dock1.pdb" "all" "all" 1 (PyVal.int 0) (PyVal.int 0)
    [("m", "1", (3 : ℚ)/2)] [("m", "1", (3 : ℚ)/2)]
    (PyVal.str "1") (PyVal.str "1") rfl rfl rfl rfl

/-- Recognizer for `color` commands. -/
def isColorCmd : Cmd → Bool
  | Cmd.color _ _ => true
  | _ => false

/-- C8.  `hydrophobicity(selection)` defines twenty named colors and
issues exactly one `color` command per standard amino-acid residue name,
each restricted to `(selection and resn X)`; an atom outside the
selection, or one whose residue name is not among the twenty standard
amino acids, keeps its previous color (indeed is untouched). -/
theorem hydrophobicity_colors_only_inside_selection (s : String) :
    ((hydrophobicity s).filter isColorCmd =
      aminoNames.map (fun r => Cmd.color ("color_" ++ r ++ "3") (hydroTarget s r))) ∧
    ((hydrophobicity s).filterMap
        (fun c => match c with | Cmd.setColor n rgb => some (n, rgb) | _ => none) =
      (aminoNames.zip aminoRGB).map (fun p => ("color_" ++ p.1 ++ "3", p.2))) ∧
    (∀ a : Atom, a.memRaw s = false → applyTraceAtom a (hydrophobicity s) = a) ∧
    (∀ a : Atom, a.resn ∉ aminoNames →
      applyTraceAtom a (hydrophobicity s) = a) := by
  refine ⟨rfl, rfl, ?_, ?_⟩
  · intro a h
    simp [hydrophobicity, applyTraceAtom, applyCmdAtom, selDenote, hydroTarget, h]
  · intro a h
    have hr : ∀ r ∈ aminoNames, (a.resn == r) = false := by
      intro r hrm
      simp only [beq_eq_false_iff_ne, ne_eq]
      exact fun hh => h (hh ▸ hrm)
    have e01 := hr "ile" (by decide)
    have e02 := hr "phe" (by decide)
    have e03 := hr "val" (by decide)
    have e04 := hr "leu" (by decide)
    have e05 := hr "trp" (by decide)
    have e06 := hr "met" (by decide)
    have e07 := hr "ala" (by decide)
    have e08 := hr "gly" (by decide)
    have e09 := hr "cys" (by decide)
    have e10 := hr "tyr" (by decide)
    have e11 := hr "pro" (by decide)
    have e12 := hr "thr" (by decide)
    have e13 := hr "ser" (by decide)
    have e14 := hr "his" (by decide)
    have e15 := hr "glu" (by decide)
    have e16 := hr "asn" (by decide)
    have e17 := hr "gln" (by decide)
    have e18 := hr "asp" (by decide)
    have e19 := hr "lys" (by decide)
    have e20 := hr "arg" (by decide)
    simp [hydrophobicity, applyTraceAtom, applyCmdAtom, selDenote, hydroTarget,
      e01, e02, e03, e04, e05, e06, e07, e08, e09, e10,
      e11, e12, e13, e14, e15, e16, e17, e18, e19, e20]

/-- Witness for `hydrophobicity_colors_only_inside_selection`: a water
atom outside the selection, and a water atom inside it, both keep their
color through the whole trace. -/
theorem hydrophobicity_colors_only_inside_selection_witness :
    applyTraceAtom
      ⟨"gray", "hoh", "7", fun _ => false, false, fun _ _ => false⟩
      (hydrophobicity "all") =
      ⟨"gray", "hoh", "7", fun _ => false, false, fun _ _ => false⟩ ∧
    applyTraceAtom
      ⟨"gray", "hoh", "7", fun _ => true, false, fun _ _ => false⟩
      (hydrophobicity "all") =
      ⟨"gray", "hoh", "7", fun _ => true, false, fun _ _ => false⟩ :=
  ⟨(hydrophobicity_colors_only_inside_selection "all").2.2.1
      ⟨"gray", "hoh", "7", fun _ => false, false, fun _ _ => false⟩ rfl,
   (hydrophobicity_colors_only_inside_selection "all").2.2.2
      ⟨"gray", "hoh", "7", fun _ => true, false, fun _ _ => false⟩ (by decide)⟩

/-! ## Frame and failure analysis of `interfaceResidues` -/

/-- Running an appended trace runs the two parts in sequence. -/
lemma applyTrace_append (xs ys : List Cmd) :
    ∀ (s : HostState), applyTrace s (xs ++ ys) = applyTrace (applyTrace s xs) ys := by
  induction xs with
  | nil => intro s; rfl
  | cons c cs ih => intro s; simp only [List.cons_append, applyTrace]; exact ih _

/-- Commands that may change a host setting. -/
def touchesSettings : Cmd → Bool
  | Cmd.set _ _ => true
  | Cmd.reinit => true
  | _ => false

/-- A command that does not touch settings leaves them unchanged. -/
lemma applyCmd_settings_of_neutral (s : HostState) (c : Cmd)
    (h : touchesSettings c = false) : (applyCmd s c).settings = s.settings := by
  cases c <;> simp_all [applyCmd, touchesSettings]

/-- A trace of commands none of which touches settings leaves them
unchanged. -/
lemma applyTrace_settings_of_neutral :
    ∀ (cs : List Cmd) (s : HostState),
      (∀ c ∈ cs, touchesSettings c = false) →
      (applyTrace s cs).settings = s.settings := by
  intro cs
  induction cs with
  | nil => intro s _; rfl
  | cons c rest ih =>
    intro s h
    rw [applyTrace, ih _ (fun c' hc' => h c' (List.mem_cons_of_mem _ hc')),
      applyCmd_settings_of_neutral s c (h c (List.mem_cons_self _ _))]

/-- Every command the `interfaceResidues` loop issues is a `select` on
the temporary selection name. -/
lemma interfaceLoop_cmds_are_selects (c : ℚ) (sn : String) :
    ∀ (records : List AtomRec) (seen : List String),
      ∀ x ∈ (interfaceLoop c sn records seen).2.2, ∃ t, x = Cmd.select sn t := by
  intro records
  induction records with
  | nil => intro seen x hx; simp [interfaceLoop] at hx
  | cons y rest ih =>
    intro seen x hx
    obtain ⟨model, resi, diff⟩ := y
    by_cases hq : |diff| ≥ c
    · by_cases hk : keyOf model resi ∈ seen
      · rw [interfaceLoop, if_pos hq, if_pos hk] at hx
        exact ih seen x hx
      · rw [interfaceLoop, if_pos hq, if_neg hk] at hx
        rcases List.mem_cons.mp hx with h | h
        · exact ⟨_, h⟩
        · exact ih _ x h
    · rw [interfaceLoop, if_neg hq] at hx
      exact ih seen x hx

/-- A trace consisting solely of `select sn` commands changes no object
other than `sn` and no setting. -/
lemma applyTrace_selects_only (sn : String) :
    ∀ (cs : List Cmd), (∀ c ∈ cs, ∃ t, c = Cmd.select sn t) →
      ∀ (s : HostState),
        (applyTrace s cs).settings = s.settings ∧
        ∀ n, n ≠ sn → (applyTrace s cs).objects n = s.objects n := by
  intro cs
  induction cs with
  | nil => intro _ s; exact ⟨rfl, fun _ _ => rfl⟩
  | cons c rest ih =>
    intro h s
    obtain ⟨t, rfl⟩ := h c (List.mem_cons_self _ _)
    have ih' := ih (fun c' hc' => h c' (List.mem_cons_of_mem _ hc'))
      (applyCmd s (Cmd.select sn t))
    refine ⟨ih'.1.trans rfl, fun n hn => ?_⟩
    rw [applyTrace, ih'.2 n hn]
    simp [applyCmd, hn]

/-- A string never equals itself with `"1"` appended. -/
lemma self_ne_append_one (x : String) : x ≠ x ++ "1" := by
  intro h
  have hlen := congrArg String.length h
  have h1 : ("1" : String).length = 1 := rfl
  rw [String.length_append, h1] at hlen
  omega

/-- The host state after a normally-completing run of
`interfaceResidues` from state `s`, where the host answered
`cmd.get("dot_solvent")` with the currently stored setting. -/
def interfaceRun (cmpx cA cB : String) (cutoff : ℚ) (selName : String)
    (records : List AtomRec) (s : HostState) : HostState :=
  applyTrace s (interfaceResidues cmpx cA cB cutoff selName
    (s.settings "dot_solvent") records).1

/-- No command of `interfacePre` touches settings. -/
lemma interfacePre_settings_neutral (cmpx cA cB selName : String) :
    ∀ c ∈ interfacePre cmpx cA cB selName, touchesSettings c = false := by
  intro c hc
  fin_cases hc <;> rfl

/-- No command of `interfacePost` touches settings. -/
lemma interfacePost_settings_neutral (cmpx selName : String) :
    ∀ c ∈ interfacePost cmpx selName, touchesSettings c = false := by
  intro c hc
  fin_cases hc <;> rfl

/-- The run of `interfaceResidues` laid out as five successive
segments. -/
lemma interfaceRun_chain (cmpx cA cB selName : String) (cutoff : ℚ)
    (records : List AtomRec) (s : HostState) :
    interfaceRun cmpx cA cB cutoff selName records s =
      applyTrace
        (applyTrace
          (applyTrace
            (applyTrace
              (applyTrace s
                [Cmd.get "dot_solvent", Cmd.set "dot_solvent" (PyVal.int 1)])
              (interfacePre cmpx cA cB selName))
            (interfaceLoop cutoff (selName ++ "1") records []).2.2)
          (interfacePost cmpx selName))
        [Cmd.set "dot_solvent" (s.settings "dot_solvent")] := by
  rw [interfaceRun]
  show applyTrace s
      ([Cmd.get "dot_solvent", Cmd.set "dot_solvent" (PyVal.int 1)]
        ++ (interfacePre cmpx cA cB selName
            ++ (interfaceLoop cutoff (selName ++ "1") records []).2.2
            ++ interfacePost cmpx selName)
        ++ [Cmd.set "dot_solvent" (s.settings "dot_solvent")]) = _
  rw [applyTrace_append, applyTrace_append, applyTrace_append, applyTrace_append]

/-- Pointwise effect of the pre-loop segment on the object table: the
working copy, the two chains and the temporary selection come into
existence, the complex ends up enabled again (it is disabled and then
re-enabled within this segment), and nothing else changes. -/
lemma interfacePre_objects (cmpx cA cB selName : String) (s : HostState)
    (b : Bool) (hc1 : cmpx ≠ "chA") (hc2 : cmpx ≠ "chB")
    (hc3 : cmpx ≠ "tempComplex") (hex : s.objects cmpx = some b) (n : String) :
    (applyTrace s (interfacePre cmpx cA cB selName)).objects n =
      if n = selName ++ "1" then some true
      else if n = cmpx then some true
      else if n = "chB" then some true
      else if n = "chA" then some true
      else if n = "tempComplex" then some true
      else s.objects n := by
  by_cases h1 : n = selName ++ "1"
  · subst h1; simp [interfacePre, applyTrace, applyCmd]
  by_cases h2 : n = cmpx
  · subst h2; simp [interfacePre, applyTrace, applyCmd, h1, hc1, hc2, hc3, hex]
  by_cases h3 : n = "chB"
  · subst h3; simp [interfacePre, applyTrace, applyCmd, h1, h2]
  by_cases h4 : n = "chA"
  · subst h4; simp [interfacePre, applyTrace, applyCmd, h1, h2, h3]
  by_cases h5 : n = "tempComplex"
  · subst h5; simp [interfacePre, applyTrace, applyCmd, h1, h2, h3, h4]
  · simp [interfacePre, applyTrace, applyCmd, h1, h2, h3, h4, h5]

/-- Pointwise effect of the post-loop segment on the object table: the
named selection appears enabled, the four temporaries are deleted, and
nothing else changes. -/
lemma interfacePost_objects (cmpx selName : String) (s : HostState)
    (hA : selName ≠ "chA") (hB : selName ≠ "chB") (hT : selName ≠ "tempComplex")
    (n : String) :
    (applyTrace s (interfacePost cmpx selName)).objects n =
      if n = selName then some true
      else if n = "tempComplex" then none
      else if n = "chB" then none
      else if n = "chA" then none
      else if n = selName ++ "1" then none
      else s.objects n := by
  have hs1 : selName ≠ selName ++ "1" := self_ne_append_one selName
  have hs1s : (selName ++ "1") ≠ selName := fun h => hs1 h.symm
  by_cases h1 : n = selName
  · subst h1; simp [interfacePost, applyTrace, applyCmd, hA, hB, hT, hs1]
  by_cases h2 : n = "tempComplex"
  · subst h2; simp [interfacePost, applyTrace, applyCmd, h1]
  by_cases h3 : n = "chB"
  · subst h3; simp [interfacePost, applyTrace, applyCmd, h1, h2]
  by_cases h4 : n = "chA"
  · subst h4; simp [interfacePost, applyTrace, applyCmd, h1, h2, h3]
  by_cases h5 : n = selName ++ "1"
  · subst h5; simp [interfacePost, applyTrace, applyCmd, hs1s, h2, h3, h4]
  · simp [interfacePost, applyTrace, applyCmd, h1, h2, h3, h4, h5]

/-- C4, amended.  A normally-completing run of `interfaceResidues` whose
selection name avoids the temporary names (`chA`, `chB`, `tempComplex`)
and whose complex name avoids the temporary names and `selName+"1"`
restores `dot_solvent` (and every other setting), deletes all four
temporary objects/selections, leaves the original complex enabled, adds
the named selection `selName`, and changes no other object. -/
theorem interfaceResidues_frame_restores_state (cmpx cA cB selName : String)
    (cutoff : ℚ) (records : List AtomRec) (s : HostState) (b : Bool)
    (hA : selName ≠ "chA") (hB : selName ≠ "chB") (hT : selName ≠ "tempComplex")
    (hc1 : cmpx ≠ "chA") (hc2 : cmpx ≠ "chB") (hc3 : cmpx ≠ "tempComplex")
    (hc4 : cmpx ≠ selName ++ "1") (hex : s.objects cmpx = some b) :
    (∀ n, (interfaceRun cmpx cA cB cutoff selName records s).settings n =
        s.settings n) ∧
    (interfaceRun cmpx cA cB cutoff selName records s).objects "tempComplex" = none ∧
    (interfaceRun cmpx cA cB cutoff selName records s).objects "chA" = none ∧
    (interfaceRun cmpx cA cB cutoff selName records s).objects "chB" = none ∧
    (interfaceRun cmpx cA cB cutoff selName records s).objects (selName ++ "1") = none ∧
    (interfaceRun cmpx cA cB cutoff selName records s).objects cmpx = some true ∧
    (interfaceRun cmpx cA cB cutoff selName records s).objects selName = some true ∧
    (∀ n, n ≠ selName → n ≠ cmpx → n ≠ "tempComplex" → n ≠ "chA" → n ≠ "chB" →
      n ≠ selName ++ "1" →
      (interfaceRun cmpx cA cB cutoff selName records s).objects n = s.objects n) := by
  have hchain := interfaceRun_chain cmpx cA cB selName cutoff records s
  rw [hchain]
  set s2 : HostState :=
    applyTrace s [Cmd.get "dot_solvent", Cmd.set "dot_solvent" (PyVal.int 1)]
    with hs2
  set sPre : HostState := applyTrace s2 (interfacePre cmpx cA cB selName)
    with hsPreDef
  set sLoop : HostState :=
    applyTrace sPre (interfaceLoop cutoff (selName ++ "1") records []).2.2
    with hsLoopDef
  set sPost : HostState := applyTrace sLoop (interfacePost cmpx selName)
    with hsPostDef
  have hloopsel := applyTrace_selects_only (selName ++ "1") _
    (interfaceLoop_cmds_are_selects cutoff (selName ++ "1") records []) sPre
  have hs2obj : s2.objects = s.objects := rfl
  have hPre : ∀ n, sPre.objects n =
      if n = selName ++ "1" then some true
      else if n = cmpx then some true
      else if n = "chB" then some true
      else if n = "chA" then some true
      else if n = "tempComplex" then some true
      else s.objects n := by
    intro n
    rw [hsPreDef, interfacePre_objects cmpx cA cB selName s2 b hc1 hc2 hc3
      (hs2obj ▸ hex) n, hs2obj]
  have hLoopObj : ∀ n, n ≠ selName ++ "1" → sLoop.objects n = sPre.objects n :=
    fun n hn => hloopsel.2 n hn
  have hPost : ∀ n, sPost.objects n =
      if n = selName then some true
      else if n = "tempComplex" then none
      else if n = "chB" then none
      else if n = "chA" then none
      else if n = selName ++ "1" then none
      else sLoop.objects n :=
    fun n => interfacePost_objects cmpx selName sLoop hA hB hT n
  have hfinObj : ∀ n,
      (applyTrace sPost [Cmd.set "dot_solvent" (s.settings "dot_solvent")]).objects n =
        sPost.objects n := fun _ => rfl
  have hset : ∀ n, sPost.settings n =
      (if n = "dot_solvent" then PyVal.int 1 else s.settings n) := by
    intro n
    have e1 : sPost.settings = sLoop.settings :=
      applyTrace_settings_of_neutral (interfacePost cmpx selName) sLoop
        (interfacePost_settings_neutral cmpx selName)
    have e2 : sLoop.settings = sPre.settings := hloopsel.1
    have e3 : sPre.settings = s2.settings :=
      applyTrace_settings_of_neutral (interfacePre cmpx cA cB selName) s2
        (interfacePre_settings_neutral cmpx cA cB selName)
    rw [e1, e2, e3]
    rfl
  refine ⟨?_, ?_, ?_, ?_, ?_, ?_, ?_, ?_⟩
  · intro n
    show (if n = "dot_solvent" then s.settings "dot_solvent"
          else sPost.settings n) = s.settings n
    by_cases hn : n = "dot_solvent"
    · rw [if_pos hn, hn]
    · rw [if_neg hn, hset n, if_neg hn]
  · rw [hfinObj, hPost]
    simp [Ne.symm hT]
  · rw [hfinObj, hPost]
    simp [Ne.symm hA]
  · rw [hfinObj, hPost]
    simp [Ne.symm hB]
  · rw [hfinObj, hPost]
    have hs1s : (selName ++ "1") ≠ selName :=
      fun h => self_ne_append_one selName h.symm
    rw [if_neg hs1s]
    split_ifs with g1 g2 g3 g4
    · rfl
    · rfl
    · rfl
    · rfl
    · exact absurd rfl g4
  · rw [hfinObj, hPost]
    by_cases hcs : cmpx = selName
    · rw [if_pos hcs]
    · rw [if_neg hcs, if_neg hc3, if_neg hc2, if_neg hc1, if_neg hc4,
        hLoopObj cmpx hc4, hPre]
      rw [if_neg hc4]
      simp
  · rw [hfinObj, hPost]
    rw [if_pos rfl]
  · intro n hn1 hn2 hn3 hn4 hn5 hn6
    rw [hfinObj, hPost, if_neg hn1, if_neg hn3, if_neg hn5, if_neg hn4,
      if_neg hn6, hLoopObj n hn6, hPre, if_neg hn6, if_neg hn2, if_neg hn5,
      if_neg hn4, if_neg hn3]

/-- Witness for `interfaceResidues_frame_restores_state` at concrete
names, records and an initial state holding only the complex. -/
theorem interfaceResidues_frame_restores_state_witness :
    (interfaceRun "cmplx" "c. A" "c. B" 1 "interface" [("m", "1", (3 : ℚ)/2)]
      { settings := fun _ => PyVal.int 0,
        objects := fun n => if n = "cmplx" then some true else none }).settings
      "dot_solvent" = PyVal.int 0 ∧
    (interfaceRun "cmplx" "c. A" "c. B" 1 "interface" [("m", "1", (3 : ℚ)/2)]
      { settings := fun _ => PyVal.int 0,
        objects := fun n => if n = "cmplx" then some true else none }).objects
      "tempComplex" = none ∧
    (interfaceRun "cmplx" "c. A" "c. B" 1 "interface" [("m", "1", (3 : ℚ)/2)]
      { settings := fun _ => PyVal.int 0,
        objects := fun n => if n = "cmplx" then some true else none }).objects
      "cmplx" = some true ∧
    (interfaceRun "cmplx" "c. A" "c. B" 1 "interface" [("m", "1", (3 : ℚ)/2)]
      { settings := fun _ => PyVal.int 0,
        objects := fun n => if n = "cmplx" then some true else none }).objects
      "interface" = some true := by
  have h := interfaceResidues_frame_restores_state "cmplx" "c. A" "c. B"
    "interface" 1 [("m", "1", (3 : ℚ)/2)]
    { settings := fun _ => PyVal.int 0,
      objects := fun n => if n = "cmplx" then some true else none } true
    (by decide) (by decide) (by decide) (by decide) (by decide) (by decide)
    (by decide) (by simp)
  exact ⟨h.1 "dot_solvent", h.2.1, h.2.2.2.2.2.1, h.2.2.2.2.2.2.1⟩

/-- C4, counterexample.  The frame claim does not hold for every
normally-completing run: with `selName = "chA"` the run completes
normally, but the cleanup `cmd.delete("chA")` deletes the selection that
was just created under that name, so the final state holds no selection
named `selName` at all — the claimed net addition of `selName` does not
happen (and the closing `cmd.enable(selName)` acts on a deleted name). -/
theorem interfaceResidues_frame_counterexample :
    (interfaceRun "cmplx" "c. A" "c. B" 1 "chA" []
      { settings := fun _ => PyVal.int 0,
        objects := fun n => if n = "cmplx" then some true else none }).objects
      "chA" = none := by
  rfl

/-- No command between `cmd.set("dot_solvent", 1)` and the final
restoring `cmd.set` touches a setting. -/
lemma interfaceMiddle_settings_neutral (cmpx cA cB : String) (cutoff : ℚ)
    (selName : String) (records : List AtomRec) :
    ∀ c ∈ interfaceMiddle cmpx cA cB cutoff selName records,
      touchesSettings c = false := by
  intro c hc
  rw [interfaceMiddle] at hc
  rcases List.mem_append.mp hc with hc | hc
  · rcases List.mem_append.mp hc with hc | hc
    · exact interfacePre_settings_neutral cmpx cA cB selName c hc
    · obtain ⟨t, rfl⟩ :=
        interfaceLoop_cmds_are_selects cutoff (selName ++ "1") records [] c hc
      rfl
  · exact interfacePost_settings_neutral cmpx selName c hc

/-- C6.  Failures are host-reported and unhandled: the script installs
no handler, so when the host raises an error on the `k`-th command of
any operation's trace, the error value propagates unchanged to the
caller; and when this happens during `interfaceResidues` anywhere after
`cmd.set("dot_solvent", 1)` (command index `k ≥ 2`, up to and including
the final restoring command), no cleanup runs and `dot_solvent` is left
at the overridden value `1`, not restored. -/
theorem failures_propagate_unhandled :
    (∀ (t : List Cmd) (k : Nat) (e : String) (st : HostState),
      k < t.length → (runUpTo k e st t).2 = some e) ∧
    (∀ (cmpx cA cB selName : String) (cutoff : ℚ) (records : List AtomRec)
        (st : HostState) (k : Nat) (e : String), 2 ≤ k →
      k < (interfaceResidues cmpx cA cB cutoff selName
            (st.settings "dot_solvent") records).1.length →
      (runUpTo k e st (interfaceResidues cmpx cA cB cutoff selName
          (st.settings "dot_solvent") records).1).1.settings "dot_solvent" =
        PyVal.int 1) := by
  constructor
  · intro t k e st hk
    rw [runUpTo, if_pos hk]
  · intro cmpx cA cB selName cutoff records st k e h2 hk
    rw [runUpTo, if_pos hk]
    obtain ⟨m, rfl⟩ : ∃ m, k = m + 2 := ⟨k - 2, by omega⟩
    have hlen : (interfaceResidues cmpx cA cB cutoff selName
        (st.settings "dot_solvent") records).1.length =
        (interfaceMiddle cmpx cA cB cutoff selName records).length + 3 := by
      simp [interfaceResidues]
    have hm : m ≤ (interfaceMiddle cmpx cA cB cutoff selName records).length := by
      rw [hlen] at hk
      omega
    have htake : (interfaceResidues cmpx cA cB cutoff selName
        (st.settings "dot_solvent") records).1.take (m + 2) =
        Cmd.get "dot_solvent" :: Cmd.set "dot_solvent" (PyVal.int 1) ::
          ((interfaceMiddle cmpx cA cB cutoff selName records ++
            [Cmd.set "dot_solvent" (st.settings "dot_solvent")]).take m) := rfl
    rw [htake, List.take_append_of_le_length hm]
    show (applyTrace
        (applyCmd (applyCmd st (Cmd.get "dot_solvent"))
          (Cmd.set "dot_solvent" (PyVal.int 1)))
        ((interfaceMiddle cmpx cA cB cutoff selName records).take m)).settings
        "dot_solvent" = PyVal.int 1
    rw [applyTrace_settings_of_neutral _ _
      (fun c hc => interfaceMiddle_settings_neutral cmpx cA cB cutoff selName
        records c (List.mem_of_mem_take hc))]
    rfl

/-- A concrete host state holding one object named `cmplx` and all
settings at `0`. -/
def hostWithComplex : HostState where
  settings := fun _ => PyVal.int 0
  objects := fun n => if n = "cmplx" then some true else none

/-- Witness for `failures_propagate_unhandled`: the host fails on the
fifth command of a concrete `interfaceResidues` run; the error reaches
the caller unchanged and `dot_solvent` stays at `1` instead of the saved
`0`. -/
theorem failures_propagate_unhandled_witness :
    (runUpTo 5 "Selector-Error" hostWithComplex
      (interfaceResidues "cmplx" "c. A" "c. B" 1 "interface"
        (PyVal.int 0) [("m", "1", (3 : ℚ)/2)]).1).2 = some "Selector-Error" ∧
    (runUpTo 5 "Selector-Error" hostWithComplex
      (interfaceResidues "cmplx" "c. A" "c. B" 1 "interface"
        (PyVal.int 0) [("m", "1", (3 : ℚ)/2)]).1).1.settings "dot_solvent" =
      PyVal.int 1 := by
  constructor
  · refine failures_propagate_unhandled.1 _ 5 "Selector-Error" hostWithComplex ?_
    simp [interfaceResidues, interfaceMiddle, interfacePre, interfacePost,
      interfaceLoop, keyOf]
  · have h := failures_propagate_unhandled.2 "cmplx" "c. A" "c. B" "interface" 1
      [("m", "1", (3 : ℚ)/2)] hostWithComplex 5 "Selector-Error" (by omega)
    refine ?_
    have hlen : 5 < (interfaceResidues "cmplx" "c. A" "c. B" 1 "interface"
        (hostWithComplex.settings "dot_solvent")
        [("m", "1", (3 : ℚ)/2)]).1.length := by
      simp [interfaceResidues, interfaceMiddle, interfacePre, interfacePost,
        interfaceLoop, keyOf]
    exact h hlen

end MBPIC
